import Mathlib

/-!
Verification of the go-crud user service (`src/api/api.go`, package `models`).

The embedding models the JSON request bodies, the strict decoder, the
required-fields validator and the five HTTP handlers as pure Lean
functions.  HTTP responses are modelled as traces of write events, since
several handlers write an error response and then fall through and keep
writing; the status actually seen by a client is the first status event of
the trace (`http.Error` / `WriteHeader` semantics: later `WriteHeader`
calls are superfluous and ignored, later `Write` calls append to the body).
-/

/-- Identifiers: `uuid.UUID` values (abstract 128-bit values; we only need
equality and a canonical textual rendering). `uuid.Parse` failure leaves the
zero value `uuid.Nil`, modelled by `uuidNil`. -/
abbrev UUID := Nat

/-- The zero `uuid.UUID` returned by `uuid.Parse` together with an error. -/
def uuidNil : UUID := 0

/-- Canonical textual form of an identifier (abstracted). -/
def uuidString (u : UUID) : String := toString u

/-- Modelled from the spec: the `models.User` struct of package `models`,
whose source file is not present under `src/` (only `models.DB` is).  Per
§4.2 of the spec a field whose key is absent from the body, or bound to
JSON `null`, is "not present", while an empty string counts as present, and
the presence check inspects the re-serialized struct; this pins the three
JSON-tagged fields (`first_name`, `last_name`, `bio`) as nullable string
pointers, modelled as `Option String` (`none` = nil pointer). -/
structure User where
  first_name : Option String
  last_name : Option String
  bio : Option String
deriving DecidableEq, Repr

/-- The zero `models.User` value (`var user models.User`): all pointer
fields nil. -/
def User.zero : User := ⟨none, none, none⟩

/-- JSON values that can appear as a field of a request body for this
schema: `null` or a string. -/
inductive JVal where
  | jnull
  | jstr (s : String)
deriving DecidableEq, Repr

/-- A JSON request body: an object, i.e. a sequence of key/value fields in
source order (duplicate keys are permitted by Go's decoder; the last
occurrence wins). -/
abbrev Body := List (String × JVal)

/-- The JSON keys of the three `models.User` fields. -/
def knownKeys : List String := ["first_name", "last_name", "bio"]

/-- Converting a decoded JSON value to the pointer field it populates:
`null` sets the pointer to nil, a string allocates it. -/
def JVal.toField : JVal → Option String
  | .jnull => none
  | .jstr s => some s

/-- Field projection of `models.User` by JSON key name. -/
def User.getKey (u : User) (k : String) : Option String :=
  if k = "first_name" then u.first_name
  else if k = "last_name" then u.last_name
  else if k = "bio" then u.bio
  else none

/-- Decoding one recognized field into the struct (`decoder.Decode`). -/
def setField (u : User) (k : String) (v : JVal) : User :=
  if k = "first_name" then { u with first_name := v.toField }
  else if k = "last_name" then { u with last_name := v.toField }
  else if k = "bio" then { u with bio := v.toField }
  else u

/-- `json.NewDecoder(body)` with `DisallowUnknownFields`, field by field:
an unrecognized key aborts with an error; recognized keys update the
struct in order. -/
def decodeUserAux : User → Body → Except String User
  | u, [] => .ok u
  | u, (k, v) :: rest =>
    if k ∈ knownKeys then decodeUserAux (setField u k v) rest
    else .error ("json: unknown field " ++ k)

/-- Strict decoding of a request body into a `models.User`, starting from
the zero value. -/
def decodeUser (b : Body) : Except String User :=
  decodeUserAux User.zero b

/-- `json.Marshal` of a `models.User` as a JSON object map (the `userMap`
/ `schemaObjMap` of `validateRequestBodyFields`): every tagged field is
emitted (no `omitempty`), nil pointers as `null`. -/
def marshalUserMap (u : User) : List (String × JVal) :=
  [("first_name", match u.first_name with | none => .jnull | some s => .jstr s),
   ("last_name", match u.last_name with | none => .jnull | some s => .jstr s),
   ("bio", match u.bio with | none => .jnull | some s => .jstr s)]

/-- Go map indexing `m[key]` on an unmarshalled `map[string]interface` --
`none` when the key is absent. -/
def mapIndex (m : List (String × JVal)) (k : String) : Option JVal :=
  (m.find? (fun kv => kv.1 = k)).map (fun kv => kv.2)

/-- `m[key] == nil` in Go: the key is absent, or its value unmarshalled
from JSON `null` (the nil interface). -/
def mapIndexIsNil (m : List (String × JVal)) (k : String) : Bool :=
  match mapIndex m k with
  | none => true
  | some .jnull => true
  | some (.jstr _) => false

/-- The fixed validation-failure message of `validateRequestBodyFields`. -/
def missingFieldsMsg : String := "please provide FirstName LastName and bio for the user"

/-- `validateRequestBodyFields(body, userModel)` from `src/api/api.go`:
strict-decode the body into a `models.User`, marshal the zero-valued
schema object and the decoded user back to JSON maps, and fail with the
fixed message if any schema key indexes a nil value in the user map. -/
def validateRequestBodyFields (b : Body) : Except String User :=
  match decodeUser b with
  | .error e => .error e
  | .ok user =>
    let schemaObjMap := marshalUserMap User.zero
    let userMap := marshalUserMap user
    if (schemaObjMap.map (fun kv => kv.1)).any (fun k => mapIndexIsNil userMap k) then
      .error missingFieldsMsg
    else
      .ok user

/-- The value bound to key `k` in the body, under Go's duplicate-key
semantics (the last occurrence wins). -/
def lastLookup : Body → String → Option JVal
  | [], _ => none
  | (k', v) :: rest, k =>
    match lastLookup rest k with
    | some w => some w
    | none => if k' = k then some v else none

/-- Key `k` is present in the body with a non-null value. -/
def presentNonNull (b : Body) (k : String) : Prop :=
  ∃ s, lastLookup b k = some (JVal.jstr s)

instance (b : Body) (k : String) : Decidable (presentNonNull b k) := by
  unfold presentNonNull
  match h : lastLookup b k with
  | none => exact .isFalse (by simp [h])
  | some .jnull => exact .isFalse (by simp [h])
  | some (.jstr s) => exact .isTrue ⟨s, by simp [h]⟩

/-! ## The Store and the HTTP layer -/

/-- `models.DB[*models.User] = map[uuid.UUID]*models.User`, modelled as an
association list with pairwise-distinct keys maintained by the operations;
a value is `Option User` because the map stores pointers, and the insert
handler can store a nil pointer (see `handleInsert`). -/
abbrev Store := List (UUID × Option User)

/-- `user, ok := db[id]`: `some v` when the key is present (with `v` the
stored pointer), `none` when absent. -/
def Store.get : Store → UUID → Option (Option User)
  | [], _ => none
  | kv :: rest, id => if kv.1 = id then some kv.2 else Store.get rest id

/-- `db[id] = user`: insert or overwrite. -/
def Store.put : Store → UUID → Option User → Store
  | [], id, v => [(id, v)]
  | kv :: rest, id, v =>
    if kv.1 = id then (id, v) :: rest else kv :: Store.put rest id v

/-- `delete(db, id)`: remove the key if present, no-op otherwise. -/
def Store.del : Store → UUID → Store
  | [], _ => []
  | kv :: rest, id => if kv.1 = id then Store.del rest id else kv :: Store.del rest id

/-- One write against the `http.ResponseWriter`: a `WriteHeader` call or a
body write. -/
inductive WriteEvent where
  | status (code : Nat)
  | body (s : String)
deriving DecidableEq, Repr

/-- `http.Error(w, msg, code)`: writes the status header and the message
followed by a newline. -/
def httpError (msg : String) (code : Nat) : List WriteEvent :=
  [.status code, .body (msg ++ "\n")]

/-- The status a client observes: the first `WriteHeader` of the trace
(subsequent `WriteHeader` calls are superfluous and have no effect). -/
def effectiveStatus : List WriteEvent → Option Nat
  | [] => none
  | .status c :: _ => some c
  | .body _ :: rest => effectiveStatus rest

/-- The body a client observes: all body writes concatenated. -/
def responseBody (tr : List WriteEvent) : String :=
  tr.foldl (fun acc e => match e with | .status _ => acc | .body s => acc ++ s) ""

/-- The `UserResponse` struct: identifier plus embedded `*models.User`
(which is nil on the error fallthrough paths). -/
structure UserResponse where
  id : UUID
  user : Option User
deriving DecidableEq, Repr

/-- `json.Marshal` of an `Option String` field. -/
def jsonOfField : Option String → String
  | none => "null"
  | some s => "\"" ++ s ++ "\""

/-- `json.Marshal(UserResponse)`: the identifier plus the flattened
embedded fields; a nil embedded `*models.User` contributes no fields. -/
def serializeUserResponse : UserResponse → String
  | ⟨id, none⟩ => "\x7b\"id\":\"" ++ uuidString id ++ "\"\x7d"
  | ⟨id, some u⟩ =>
    "\x7b\"id\":\"" ++ uuidString id ++ "\",\"first_name\":" ++ jsonOfField u.first_name ++
      ",\"last_name\":" ++ jsonOfField u.last_name ++ ",\"bio\":" ++ jsonOfField u.bio ++ "\x7d"

/-- `json.Marshal` of the `[]UserResponse` slice: a nil slice (never
appended to) marshals to `null`, a non-nil one to a JSON array. -/
def serializeUserResponseList : Option (List UserResponse) → String
  | none => "null"
  | some rs => "[" ++ String.intercalate "," (rs.map serializeUserResponse) ++ "]"

/-- `result = append(result, ...)` starting from a nil `[]UserResponse`. -/
def appendResult (acc : Option (List UserResponse)) (r : UserResponse) : Option (List UserResponse) :=
  match acc with
  | none => some [r]
  | some l => some (l ++ [r])

/-! ## The five handlers -/

/-- `handleFindAll`: wrap every store entry, marshal the slice, respond
200.  (The marshal-error 500 branch is unreachable for these values and is
omitted.) -/
def handleFindAll (db : Store) : List WriteEvent :=
  let result := db.foldl (fun acc kv => appendResult acc ⟨kv.1, kv.2⟩) none
  [.status 200, .body (serializeUserResponseList result)]

/-- The identifier a handler works with after `uuid.Parse`: the parsed
value, or `uuid.Nil` on a parse error. -/
def parsedId : Except Unit UUID → UUID
  | .ok u => u
  | .error _ => uuidNil

/-- `handleFindById`: 400 on a bad identifier, 404 when absent — but with
no `return` after either error, so it always falls through to the lookup
(`user` is nil when `!ok`) and the final 200 + body write. -/
def handleFindById (db : Store) (p : Except Unit UUID) : List WriteEvent :=
  let parsedID := parsedId p
  let errs1 := match p with | .ok _ => [] | .error _ => httpError "Invalid ID" 400
  let lookup := db.get parsedID
  let errs2 := match lookup with | some _ => [] | none => httpError "User not found" 404
  let user : Option User := match lookup with | some v => v | none => none
  let jsonUser := serializeUserResponse ⟨parsedID, user⟩
  errs1 ++ errs2 ++ [.status 200, .body jsonUser]

/-- `handleInsert`: validate the body (400 on failure, but no `return`, so
`user` stays nil and execution continues), mint `userId`, write
`db[userId] = user` unconditionally, respond 201 with the wrapped JSON.
The minted `uuid.New()` value is passed in as `newId`. -/
def handleInsert (db : Store) (newId : UUID) (b : Body) : Store × List WriteEvent :=
  let vres := validateRequestBodyFields b
  let user : Option User := match vres with | .ok u => some u | .error _ => none
  let errs := match vres with | .ok _ => [] | .error _ => httpError "Invalid request body" 400
  let db2 := db.put newId user
  let jsonUser := serializeUserResponse ⟨newId, user⟩
  (db2, errs ++ [.status 201, .body jsonUser])

/-- `handleUpdate`: 400 on a bad identifier, 400 on an invalid body, 404
when the identifier is absent — each without a `return` — then the
unconditional write `db[parsedID] = user` and the 200 + body write. -/
def handleUpdate (db : Store) (p : Except Unit UUID) (b : Body) : Store × List WriteEvent :=
  let parsedID := parsedId p
  let errs1 := match p with | .ok _ => [] | .error _ => httpError "Invalid ID" 400
  let vres := validateRequestBodyFields b
  let user : Option User := match vres with | .ok u => some u | .error _ => none
  let errs2 := match vres with | .ok _ => [] | .error _ => httpError "Invalid request body" 400
  let errs3 := match db.get parsedID with | some _ => [] | none => httpError "User not found" 404
  let db2 := db.put parsedID user
  let jsonUser := serializeUserResponse ⟨parsedID, user⟩
  (db2, errs1 ++ errs2 ++ errs3 ++ [.status 200, .body jsonUser])

/-- `handleDelete`: 400 on a bad identifier, 404 when absent (again
without `return`), then the unconditional `delete` and `WriteHeader(204)`. -/
def handleDelete (db : Store) (p : Except Unit UUID) : Store × List WriteEvent :=
  let parsedID := parsedId p
  let errs1 := match p with | .ok _ => [] | .error _ => httpError "Invalid ID" 400
  let errs2 := match db.get parsedID with | some _ => [] | none => httpError "User not found" 404
  let db2 := db.del parsedID
  (db2, errs1 ++ errs2 ++ [.status 204])

/-- A dispatched request (router `NewHandler`): the method+path routes of
the five handlers, with path parsing and identifier minting made explicit. -/
inductive Req where
  | list
  | find (p : Except Unit UUID)
  | insert (newId : UUID) (b : Body)
  | update (p : Except Unit UUID) (b : Body)
  | del (p : Except Unit UUID)

/-- One request against the shared store: the store after the call and the
response trace. -/
def step (db : Store) : Req → Store × List WriteEvent
  | .list => (db, handleFindAll db)
  | .find p => (db, handleFindById db p)
  | .insert newId b => handleInsert db newId b
  | .update p b => handleUpdate db p b
  | .del p => handleDelete db p

/-! ## Decoder and validator lemmas -/

theorem User.getKey_zero (k : String) : User.zero.getKey k = none := by
  unfold User.zero User.getKey
  repeat' split
  all_goals rfl

theorem User.getKey_setField (u : User) (k' k : String) (v : JVal) (hk : k ∈ knownKeys) :
    (setField u k' v).getKey k = if k' = k then v.toField else u.getKey k := by
  simp only [knownKeys, List.mem_cons, List.not_mem_nil, or_false] at hk
  rcases hk with rfl | rfl | rfl <;>
    by_cases h1 : k' = "first_name" <;> by_cases h2 : k' = "last_name" <;>
      by_cases h3 : k' = "bio" <;> simp_all [setField, User.getKey]

theorem decodeUserAux_getKey (b : Body) (acc u : User)
    (h : decodeUserAux acc b = .ok u) (k : String) (hk : k ∈ knownKeys) :
    u.getKey k = (lastLookup b k).elim (acc.getKey k) JVal.toField := by
  induction b generalizing acc with
  | nil =>
    simp only [decodeUserAux, Except.ok.injEq] at h
    subst h
    rfl
  | cons kv rest ih =>
    obtain ⟨k', v⟩ := kv
    simp only [decodeUserAux] at h
    split at h
    · have hrec := ih (setField acc k' v) h
      rw [hrec]
      show _ = (lastLookup ((k', v) :: rest) k).elim (acc.getKey k) JVal.toField
      simp only [lastLookup]
      cases hll : lastLookup rest k with
      | some w => rfl
      | none =>
        rw [User.getKey_setField acc k' k v hk]
        split <;> rfl
    · exact absurd h (by simp)

theorem decodeUser_getKey (b : Body) (u : User) (h : decodeUser b = .ok u)
    (k : String) (hk : k ∈ knownKeys) :
    u.getKey k = (lastLookup b k).elim none JVal.toField := by
  have := decodeUserAux_getKey b User.zero u h k hk
  rwa [User.getKey_zero] at this

theorem getKey_ne_none_iff_presentNonNull (b : Body) (u : User)
    (h : decodeUser b = .ok u) (k : String) (hk : k ∈ knownKeys) :
    u.getKey k ≠ none ↔ presentNonNull b k := by
  rw [decodeUser_getKey b u h k hk]
  unfold presentNonNull
  cases hll : lastLookup b k with
  | none => simp
  | some w => cases w <;> simp [JVal.toField]

theorem decodeUserAux_unknown_key (b : Body) (acc : User)
    (h : ∃ kv ∈ b, kv.1 ∉ knownKeys) : ∃ e, decodeUserAux acc b = .error e := by
  induction b generalizing acc with
  | nil => simp at h
  | cons kv rest ih =>
    obtain ⟨k', v⟩ := kv
    by_cases hk : k' ∈ knownKeys
    · obtain ⟨kv', hmem, hnk⟩ := h
      rcases List.mem_cons.mp hmem with rfl | hmem'
      · exact absurd hk hnk
      · simpa [decodeUserAux, hk] using ih (setField acc k' v) ⟨kv', hmem', hnk⟩
    · exact ⟨"json: unknown field " ++ k', by simp [decodeUserAux, hk]⟩

theorem decodeUserAux_all_known (b : Body) (acc : User)
    (h : ∀ kv ∈ b, kv.1 ∈ knownKeys) : ∃ u, decodeUserAux acc b = .ok u := by
  induction b generalizing acc with
  | nil => exact ⟨acc, rfl⟩
  | cons kv rest ih =>
    obtain ⟨k', v⟩ := kv
    have hk : k' ∈ knownKeys := h (k', v) (List.mem_cons_self _ _)
    simpa [decodeUserAux, hk] using
      ih (setField acc k' v) (fun kv' hmem => h kv' (List.mem_cons_of_mem _ hmem))

theorem checkFailed_iff (u : User) :
    ((marshalUserMap User.zero).map (fun kv => kv.1)).any
        (fun k => mapIndexIsNil (marshalUserMap u) k) = true ↔
      (u.first_name = none ∨ u.last_name = none ∨ u.bio = none) := by
  obtain ⟨f, l, bo⟩ := u
  cases f <;> cases l <;> cases bo <;>
    simp [marshalUserMap, mapIndexIsNil, mapIndex, User.zero, List.find?]

theorem validateRequestBodyFields_ok_iff (b : Body) (u : User) :
    validateRequestBodyFields b = .ok u ↔
      decodeUser b = .ok u ∧
        u.first_name ≠ none ∧ u.last_name ≠ none ∧ u.bio ≠ none := by
  cases hdec : decodeUser b with
  | error e => simp [validateRequestBodyFields, hdec]
  | ok u' =>
    simp only [validateRequestBodyFields, hdec]
    by_cases hc : ((marshalUserMap User.zero).map (fun kv => kv.1)).any
        (fun k => mapIndexIsNil (marshalUserMap u') k) = true
    · rw [if_pos hc]
      have hfail := (checkFailed_iff u').mp hc
      constructor
      · intro h
        exact absurd h (by simp)
      · rintro ⟨hu, h1, h2, h3⟩
        simp only [Except.ok.injEq] at hu
        subst hu
        rcases hfail with h | h | h <;> simp_all
    · rw [if_neg hc]
      have hfields := (not_iff_not.mpr (checkFailed_iff u')).mp hc
      push_neg at hfields
      constructor
      · intro h
        simp only [Except.ok.injEq] at h
        subst h
        exact ⟨rfl, hfields.1, hfields.2.1, hfields.2.2⟩
      · rintro ⟨hu, -, -, -⟩
        simp only [Except.ok.injEq] at hu
        subst hu
        rfl

theorem validateRequestBodyFields_missing (b : Body) (u : User)
    (hdec : decodeUser b = .ok u)
    (h : u.first_name = none ∨ u.last_name = none ∨ u.bio = none) :
    validateRequestBodyFields b = .error missingFieldsMsg := by
  simp only [validateRequestBodyFields, hdec]
  rw [if_pos ((checkFailed_iff u).mpr h)]

theorem validateRequestBodyFields_error_of_decode (b : Body) (e : String)
    (hdec : decodeUser b = .error e) :
    validateRequestBodyFields b = .error e := by
  simp [validateRequestBodyFields, hdec]

/-! ## Store lemmas -/

theorem Store.get_put_self (db : Store) (id : UUID) (v : Option User) :
    (db.put id v).get id = some v := by
  induction db with
  | nil => simp [Store.put, Store.get]
  | cons kv rest ih =>
    simp only [Store.put]
    split
    · simp [Store.get]
    · simp [Store.get, *]

theorem Store.get_put_ne (db : Store) (id k : UUID) (v : Option User) (h : k ≠ id) :
    (db.put id v).get k = db.get k := by
  induction db with
  | nil => simp [Store.put, Store.get, Ne.symm h]
  | cons kv rest ih =>
    simp only [Store.put]
    split
    · rename_i heq
      simp [Store.get, heq, h, Ne.symm h]
    · simp only [Store.get]
      split
      · rfl
      · exact ih

theorem Store.get_del_self (db : Store) (id : UUID) :
    (db.del id).get id = none := by
  induction db with
  | nil => rfl
  | cons kv rest ih =>
    simp only [Store.del]
    split
    · exact ih
    · simp [Store.get, *]

theorem Store.get_del_ne (db : Store) (id k : UUID) (h : k ≠ id) :
    (db.del id).get k = db.get k := by
  induction db with
  | nil => rfl
  | cons kv rest ih =>
    simp only [Store.del]
    split
    · rename_i heq
      simp [Store.get, heq, Ne.symm h, ih]
    · simp only [Store.get]
      split
      · rfl
      · exact ih

theorem Store.del_del (db : Store) (id : UUID) :
    (db.del id).del id = db.del id := by
  induction db with
  | nil => rfl
  | cons kv rest ih =>
    simp only [Store.del]
    split
    · exact ih
    · simp [Store.del, *]

/-! ## Shared concrete inputs -/

/-- A complete request body: all three fields with string values. -/
def bodyABC : Body :=
  [("first_name", JVal.jstr "A"), ("last_name", JVal.jstr "B"), ("bio", JVal.jstr "C")]

/-- The user decoded from `bodyABC`. -/
def userABC : User := ⟨some "A", some "B", some "C"⟩

theorem forall_knownKeys_iff (P : String → Prop) :
    (∀ k ∈ knownKeys, P k) ↔ P "first_name" ∧ P "last_name" ∧ P "bio" := by
  simp [knownKeys]

/-! ## The claims -/

/-- C1: for every request body accepted by strict decoding, the validator
accepts it iff each of the three required keys (`first_name`, `last_name`,
`bio`) is present in the body with a non-null value — `"bio": ""` counts
as present, JSON `null` or absence does not — and rejection for missing
fields carries exactly the message
"please provide FirstName LastName and bio for the user". -/
theorem C1_validator_presence (b : Body) (u : User) (hdec : decodeUser b = .ok u) :
    ((∃ u', validateRequestBodyFields b = .ok u') ↔ ∀ k ∈ knownKeys, presentNonNull b k)
    ∧ (¬ (∀ k ∈ knownKeys, presentNonNull b k) →
        validateRequestBodyFields b = .error missingFieldsMsg) := by
  have hf := getKey_ne_none_iff_presentNonNull b u hdec
  have h1 := hf "first_name" (by simp [knownKeys])
  have h2 := hf "last_name" (by simp [knownKeys])
  have h3 := hf "bio" (by simp [knownKeys])
  rw [show u.getKey "first_name" = u.first_name by simp [User.getKey]] at h1
  rw [show u.getKey "last_name" = u.last_name by simp [User.getKey]] at h2
  rw [show u.getKey "bio" = u.bio by simp [User.getKey]] at h3
  rw [forall_knownKeys_iff]
  constructor
  · constructor
    · rintro ⟨u', hok⟩
      obtain ⟨hdec', hn1, hn2, hn3⟩ := (validateRequestBodyFields_ok_iff b u').mp hok
      rw [hdec] at hdec'
      injection hdec' with he
      subst he
      exact ⟨h1.mp hn1, h2.mp hn2, h3.mp hn3⟩
    · rintro ⟨p1, p2, p3⟩
      exact ⟨u, (validateRequestBodyFields_ok_iff b u).mpr
        ⟨hdec, h1.mpr p1, h2.mpr p2, h3.mpr p3⟩⟩
  · intro hn
    apply validateRequestBodyFields_missing b u hdec
    by_contra hcon
    push_neg at hcon
    exact hn ⟨h1.mp hcon.1, h2.mp hcon.2.1, h3.mp hcon.2.2⟩

/-- Witness for C1 at a concrete body with `"bio": ""`. -/
theorem C1_validator_presence_witness :
    decodeUser [("first_name", JVal.jstr "a"), ("last_name", JVal.jstr "b"),
        ("bio", JVal.jstr "")] = Except.ok ⟨some "a", some "b", some ""⟩
    ∧ (((∃ u', validateRequestBodyFields [("first_name", JVal.jstr "a"),
          ("last_name", JVal.jstr "b"), ("bio", JVal.jstr "")] = .ok u') ↔
        ∀ k ∈ knownKeys, presentNonNull [("first_name", JVal.jstr "a"),
          ("last_name", JVal.jstr "b"), ("bio", JVal.jstr "")] k)
      ∧ (¬ (∀ k ∈ knownKeys, presentNonNull [("first_name", JVal.jstr "a"),
            ("last_name", JVal.jstr "b"), ("bio", JVal.jstr "")] k) →
          validateRequestBodyFields [("first_name", JVal.jstr "a"),
            ("last_name", JVal.jstr "b"), ("bio", JVal.jstr "")] =
            .error missingFieldsMsg)) :=
  ⟨rfl, C1_validator_presence _ _ rfl⟩

/-- C10: the validator's outcome depends only on the decoded `models.User`
value, not on the raw body: two bodies that strict-decode to the same
`User` get the same validation result. -/
theorem C10_validator_extensional (b1 b2 : Body) (u : User)
    (h1 : decodeUser b1 = .ok u) (h2 : decodeUser b2 = .ok u) :
    validateRequestBodyFields b1 = validateRequestBodyFields b2 := by
  simp only [validateRequestBodyFields, h1, h2]

/-- Witness for C10: a body omitting `bio` and a body with `"bio": null`
decode to the same `User` and are validated identically. -/
theorem C10_validator_extensional_witness :
    decodeUser [("first_name", JVal.jstr "a"), ("last_name", JVal.jstr "b")] =
      Except.ok ⟨some "a", some "b", none⟩
    ∧ decodeUser [("first_name", JVal.jstr "a"), ("last_name", JVal.jstr "b"),
        ("bio", JVal.jnull)] = Except.ok ⟨some "a", some "b", none⟩
    ∧ validateRequestBodyFields [("first_name", JVal.jstr "a"), ("last_name", JVal.jstr "b")] =
        validateRequestBodyFields [("first_name", JVal.jstr "a"), ("last_name", JVal.jstr "b"),
          ("bio", JVal.jnull)] :=
  ⟨rfl, rfl, C10_validator_extensional _ _ ⟨some "a", some "b", none⟩ rfl rfl⟩

/-- C8: a body with an unrecognized key, or missing a required field, is
rejected by the validator, and both the create and the update handler
respond with effective status 400. -/
theorem C8_strict_reject_400 (db : Store) (newId id : UUID) (b : Body)
    (h : (∃ kv ∈ b, kv.1 ∉ knownKeys) ∨ ∃ k ∈ knownKeys, ¬ presentNonNull b k) :
    (∃ e, validateRequestBodyFields b = .error e)
    ∧ effectiveStatus (handleInsert db newId b).2 = some 400
    ∧ effectiveStatus (handleUpdate db (Except.ok id) b).2 = some 400 := by
  have hverr : ∃ e, validateRequestBodyFields b = .error e := by
    rcases h with hun | ⟨k, hk, hnp⟩
    · obtain ⟨e, he⟩ := decodeUserAux_unknown_key b User.zero hun
      exact ⟨e, validateRequestBodyFields_error_of_decode b e he⟩
    · cases hdec : decodeUser b with
      | error e => exact ⟨e, validateRequestBodyFields_error_of_decode b e hdec⟩
      | ok u =>
        refine ⟨missingFieldsMsg, validateRequestBodyFields_missing b u hdec ?_⟩
        have hgk : u.getKey k = none := by
          by_contra hne
          exact hnp ((getKey_ne_none_iff_presentNonNull b u hdec k hk).mp hne)
        simp only [knownKeys, List.mem_cons, List.not_mem_nil, or_false] at hk
        rcases hk with rfl | rfl | rfl
        · exact Or.inl (by simpa [User.getKey] using hgk)
        · exact Or.inr (Or.inl (by simpa [User.getKey] using hgk))
        · exact Or.inr (Or.inr (by simpa [User.getKey] using hgk))
  obtain ⟨e, he⟩ := hverr
  refine ⟨⟨e, he⟩, ?_, ?_⟩
  · simp [handleInsert, he, httpError, effectiveStatus]
  · simp [handleUpdate, he, httpError, effectiveStatus, parsedId]

/-- Witness for C8 at a body with the unrecognized key "foo". -/
theorem C8_strict_reject_400_witness :
    ((∃ kv ∈ [("foo", JVal.jstr "x")], kv.1 ∉ knownKeys)
      ∨ ∃ k ∈ knownKeys, ¬ presentNonNull [("foo", JVal.jstr "x")] k)
    ∧ ((∃ e, validateRequestBodyFields [("foo", JVal.jstr "x")] = .error e)
      ∧ effectiveStatus (handleInsert [] 1 [("foo", JVal.jstr "x")]).2 = some 400
      ∧ effectiveStatus (handleUpdate [] (Except.ok 1) [("foo", JVal.jstr "x")]).2 = some 400) :=
  ⟨by decide, C8_strict_reject_400 [] 1 1 [("foo", JVal.jstr "x")] (by decide)⟩

/-- C2 counterexample: the empty JSON object fails validation and the
create handler responds 400, yet the Store is NOT left unchanged — the
missing `return` after `http.Error` lets the handler mint id 1 and insert
a nil user. -/
theorem C2_counterexample :
    validateRequestBodyFields [] = Except.error missingFieldsMsg
    ∧ effectiveStatus (handleInsert [] 1 []).2 = some 400
    ∧ (handleInsert [] 1 []).1 = [(1, (none : Option User))]
    ∧ (handleInsert [] 1 []).1 ≠ ([] : Store) :=
  ⟨rfl, rfl, rfl, by decide⟩

/-- C2 amended: on validation failure the create handler responds with
effective status 400 "Invalid request body" but — lacking a `return` — it
still mints the identifier and inserts a nil user into the Store, then
appends the 201 attempt to the trace; only on validation success does it
insert the decoded User and respond 201 with the wrapped JSON. -/
theorem C2_insert_amended (db : Store) (newId : UUID) (b : Body) :
    (∀ e, validateRequestBodyFields b = .error e →
      handleInsert db newId b =
        (db.put newId none,
          httpError "Invalid request body" 400 ++
            [.status 201, .body (serializeUserResponse ⟨newId, none⟩)])
      ∧ effectiveStatus (handleInsert db newId b).2 = some 400)
    ∧ (∀ u, validateRequestBodyFields b = .ok u →
      handleInsert db newId b =
        (db.put newId (some u),
          [.status 201, .body (serializeUserResponse ⟨newId, some u⟩)])
      ∧ effectiveStatus (handleInsert db newId b).2 = some 201) := by
  constructor
  · intro e he
    constructor
    · simp [handleInsert, he]
    · simp [handleInsert, he, httpError, effectiveStatus]
  · intro u hu
    constructor
    · simp [handleInsert, hu]
    · simp [handleInsert, hu, effectiveStatus]

/-- Witness for the amended C2, on both branches. -/
theorem C2_insert_amended_witness :
    (handleInsert [] 1 [] =
      (Store.put [] 1 none,
        httpError "Invalid request body" 400 ++
          [.status 201, .body (serializeUserResponse ⟨1, none⟩)])
      ∧ effectiveStatus (handleInsert [] 1 []).2 = some 400)
    ∧ (handleInsert [] 2 bodyABC =
      (Store.put [] 2 (some userABC),
        [.status 201, .body (serializeUserResponse ⟨2, some userABC⟩)])
      ∧ effectiveStatus (handleInsert [] 2 bodyABC).2 = some 201) :=
  ⟨(C2_insert_amended [] 1 []).1 missingFieldsMsg rfl,
   (C2_insert_amended [] 2 bodyABC).2 userABC rfl⟩

/-- C3: for a valid identifier and a valid body, the update handler writes
unconditionally — afterwards the Store maps the identifier to exactly the
decoded User (full replacement), other keys are untouched — and when the
identifier was absent the effective response is 404 "User not found",
when present it is 200. -/
theorem C3_update_writes_unconditionally (db : Store) (id : UUID) (b : Body) (u : User)
    (hv : validateRequestBodyFields b = .ok u) :
    (handleUpdate db (Except.ok id) b).1 = db.put id (some u)
    ∧ Store.get (handleUpdate db (Except.ok id) b).1 id = some (some u)
    ∧ (∀ k, k ≠ id → Store.get (handleUpdate db (Except.ok id) b).1 k = db.get k)
    ∧ (db.get id = none → effectiveStatus (handleUpdate db (Except.ok id) b).2 = some 404)
    ∧ (db.get id ≠ none → effectiveStatus (handleUpdate db (Except.ok id) b).2 = some 200) := by
  have hst : (handleUpdate db (Except.ok id) b).1 = db.put id (some u) := by
    simp [handleUpdate, hv, parsedId]
  refine ⟨hst, ?_, ?_, ?_, ?_⟩
  · rw [hst]
    exact Store.get_put_self db id (some u)
  · intro k hk
    rw [hst]
    exact Store.get_put_ne db id k (some u) hk
  · intro habs
    simp [handleUpdate, hv, parsedId, habs, httpError, effectiveStatus]
  · intro hpres
    cases hget : db.get id with
    | none => exact absurd hget hpres
    | some v => simp [handleUpdate, hv, parsedId, hget, effectiveStatus]

/-- Witness for C3: updating an id absent from the empty Store still
stores it, with effective status 404. -/
theorem C3_update_writes_unconditionally_witness :
    (handleUpdate [] (Except.ok 7) bodyABC).1 = Store.put [] 7 (some userABC)
    ∧ Store.get (handleUpdate [] (Except.ok 7) bodyABC).1 7 = some (some userABC)
    ∧ effectiveStatus (handleUpdate [] (Except.ok 7) bodyABC).2 = some 404 :=
  ⟨(C3_update_writes_unconditionally [] 7 bodyABC userABC rfl).1,
   (C3_update_writes_unconditionally [] 7 bodyABC userABC rfl).2.1,
   (C3_update_writes_unconditionally [] 7 bodyABC userABC rfl).2.2.2.1 rfl⟩

theorem appendResult_some (acc : List UserResponse) (r : UserResponse) :
    appendResult (some acc) r = some (acc ++ [r]) := rfl

theorem appendResult_none (r : UserResponse) : appendResult none r = some [r] := rfl

theorem foldl_appendResult (l : Store) (acc : List UserResponse) :
    l.foldl (fun a kv => appendResult a ⟨kv.1, kv.2⟩) (some acc) =
      some (acc ++ l.map fun kv => UserResponse.mk kv.1 kv.2) := by
  induction l generalizing acc with
  | nil => simp
  | cons kv rest ih =>
    simp only [List.foldl_cons, List.map_cons]
    rw [appendResult_some, ih]
    simp

theorem handleFindAll_result (db : Store) :
    db.foldl (fun acc kv => appendResult acc ⟨kv.1, kv.2⟩) none =
      match db with
      | [] => none
      | _ => some (db.map fun kv => UserResponse.mk kv.1 kv.2) := by
  cases db with
  | nil => rfl
  | cons kv rest =>
    simp only [List.foldl_cons]
    rw [appendResult_none, foldl_appendResult]
    simp

/-- C4 counterexample: on the empty Store the list handler serializes the
nil `[]UserResponse` slice, so the body is the JSON value `null`, not an
empty JSON array. -/
theorem C4_counterexample :
    handleFindAll ([] : Store) = [.status 200, .body "null"]
    ∧ responseBody (handleFindAll ([] : Store)) ≠ "[]" :=
  ⟨rfl, by decide⟩

/-- C4 amended: the list handler always responds 200; on a non-empty
Store the body is the JSON array of exactly the Store's entries wrapped as
identifier+User objects, once each, in store order; on the empty Store the
body is `null` (the marshalled nil slice), not an empty array. -/
theorem C4_findAll_amended (db : Store) :
    effectiveStatus (handleFindAll db) = some 200
    ∧ (db = [] → responseBody (handleFindAll db) = "null")
    ∧ (db ≠ [] → responseBody (handleFindAll db) =
        "[" ++ String.intercalate ","
          (db.map fun kv => serializeUserResponse ⟨kv.1, kv.2⟩) ++ "]") := by
  refine ⟨rfl, ?_, ?_⟩
  · rintro rfl
    rfl
  · intro hne
    cases db with
    | nil => exact absurd rfl hne
    | cons kv rest =>
      simp only [handleFindAll, handleFindAll_result]
      simp [serializeUserResponseList, responseBody, Function.comp_def]

/-- Witness for the amended C4, on both branches. -/
theorem C4_findAll_amended_witness :
    (effectiveStatus (handleFindAll [(3, some userABC)]) = some 200
      ∧ responseBody (handleFindAll [(3, some userABC)]) =
          "[" ++ String.intercalate ","
            ([((3 : UUID), some userABC)].map fun kv => serializeUserResponse ⟨kv.1, kv.2⟩) ++ "]")
    ∧ responseBody (handleFindAll ([] : Store)) = "null" :=
  ⟨⟨(C4_findAll_amended [(3, some userABC)]).1,
    (C4_findAll_amended [(3, some userABC)]).2.2 (by decide)⟩,
   (C4_findAll_amended []).2.1 rfl⟩

/-- C5: deleting an existing identifier responds 204 and removes the
entry; a second delete of the same identifier responds 404; the Store
after the second call equals the Store after the first. -/
theorem C5_delete_idempotent_effect (db : Store) (id : UUID) (v : Option User)
    (h : db.get id = some v) :
    effectiveStatus (handleDelete db (Except.ok id)).2 = some 204
    ∧ Store.get (handleDelete db (Except.ok id)).1 id = none
    ∧ effectiveStatus (handleDelete (handleDelete db (Except.ok id)).1 (Except.ok id)).2 = some 404
    ∧ (handleDelete (handleDelete db (Except.ok id)).1 (Except.ok id)).1
        = (handleDelete db (Except.ok id)).1 := by
  have hst1 : (handleDelete db (Except.ok id)).1 = db.del id := by
    simp [handleDelete, parsedId]
  have hgone : (db.del id).get id = none := Store.get_del_self db id
  refine ⟨?_, ?_, ?_, ?_⟩
  · simp [handleDelete, parsedId, h, effectiveStatus]
  · rw [hst1]
    exact hgone
  · rw [hst1]
    simp [handleDelete, parsedId, hgone, httpError, effectiveStatus]
  · rw [hst1]
    simp [handleDelete, parsedId, Store.del_del]

/-- Witness for C5 at a one-entry Store. -/
theorem C5_delete_idempotent_effect_witness :
    effectiveStatus (handleDelete [(2, some userABC)] (Except.ok 2)).2 = some 204
    ∧ Store.get (handleDelete [(2, some userABC)] (Except.ok 2)).1 2 = none
    ∧ effectiveStatus
        (handleDelete (handleDelete [(2, some userABC)] (Except.ok 2)).1 (Except.ok 2)).2 = some 404
    ∧ (handleDelete (handleDelete [(2, some userABC)] (Except.ok 2)).1 (Except.ok 2)).1
        = (handleDelete [(2, some userABC)] (Except.ok 2)).1 :=
  C5_delete_idempotent_effect [(2, some userABC)] 2 (some userABC) rfl

/-- C6: whenever the get-by-id handler writes a 400 or 404 error, it does
not stop there — the trace still ends with the attempted success response:
a 200 status write followed by the serialized user body. -/
theorem C6_findById_fallthrough (db : Store) (p : Except Unit UUID)
    (h : WriteEvent.status 400 ∈ handleFindById db p
      ∨ WriteEvent.status 404 ∈ handleFindById db p) :
    ∃ j, [WriteEvent.status 200, WriteEvent.body j] <:+ handleFindById db p := by
  unfold handleFindById
  exact ⟨_, List.suffix_append _ _⟩

/-- Witness for C6: an invalid identifier against the empty Store yields
both errors, and the trace still ends with the 200 attempt. -/
theorem C6_findById_fallthrough_witness :
    (WriteEvent.status 400 ∈ handleFindById [] (Except.error ())
      ∨ WriteEvent.status 404 ∈ handleFindById [] (Except.error ()))
    ∧ ∃ j, [WriteEvent.status 200, WriteEvent.body j] <:+ handleFindById [] (Except.error ()) :=
  ⟨Or.inl (by decide), C6_findById_fallthrough [] (Except.error ()) (Or.inl (by decide))⟩

/-- C7: get-by-id is a pure reader — it leaves the Store unchanged, and a
second call with the same identifier against the resulting state produces
the identical response trace (same status and body). -/
theorem C7_findById_pure_reader (db : Store) (p : Except Unit UUID) :
    (step db (Req.find p)).1 = db
    ∧ (step (step db (Req.find p)).1 (Req.find p)).2 = (step db (Req.find p)).2 :=
  ⟨rfl, rfl⟩

/-- C9: create-then-get round trip — for any body carrying exactly the
three required keys with string values (empty strings included) and a
fresh identifier, create responds 201 with the wrapped identifier and the
submitted values, stores them, and a subsequent get on that identifier
responds 200 with the same wrapped JSON. -/
theorem C9_create_then_get (db : Store) (newId : UUID) (b : Body) (f l c : String)
    (hfresh : db.get newId = none)
    (hkeys : ∀ kv ∈ b, kv.1 ∈ knownKeys)
    (hf : lastLookup b "first_name" = some (JVal.jstr f))
    (hl : lastLookup b "last_name" = some (JVal.jstr l))
    (hc : lastLookup b "bio" = some (JVal.jstr c)) :
    handleInsert db newId b =
      (db.put newId (some ⟨some f, some l, some c⟩),
        [.status 201, .body (serializeUserResponse ⟨newId, some ⟨some f, some l, some c⟩⟩)])
    ∧ handleFindById (handleInsert db newId b).1 (Except.ok newId) =
        [.status 200, .body (serializeUserResponse ⟨newId, some ⟨some f, some l, some c⟩⟩)] := by
  obtain ⟨u, hu⟩ := decodeUserAux_all_known b User.zero hkeys
  have hdec : decodeUser b = .ok u := hu
  have h1 : u.first_name = some f := by
    have hg := decodeUser_getKey b u hdec "first_name" (by simp [knownKeys])
    rw [hf] at hg
    simpa [User.getKey, JVal.toField] using hg
  have h2 : u.last_name = some l := by
    have hg := decodeUser_getKey b u hdec "last_name" (by simp [knownKeys])
    rw [hl] at hg
    simpa [User.getKey, JVal.toField] using hg
  have h3 : u.bio = some c := by
    have hg := decodeUser_getKey b u hdec "bio" (by simp [knownKeys])
    rw [hc] at hg
    simpa [User.getKey, JVal.toField] using hg
  have hueq : u = ⟨some f, some l, some c⟩ := by
    cases u
    simp_all
  subst hueq
  have hval : validateRequestBodyFields b = .ok ⟨some f, some l, some c⟩ :=
    (validateRequestBodyFields_ok_iff b _).mpr ⟨hdec, by simp, by simp, by simp⟩
  have hins : handleInsert db newId b =
      (db.put newId (some ⟨some f, some l, some c⟩),
        [.status 201, .body (serializeUserResponse ⟨newId, some ⟨some f, some l, some c⟩⟩)]) := by
    simp [handleInsert, hval]
  refine ⟨hins, ?_⟩
  have hget : Store.get (handleInsert db newId b).1 newId =
      some (some ⟨some f, some l, some c⟩) := by
    rw [hins]
    exact Store.get_put_self db newId _
  simp [handleFindById, parsedId, hget]

/-- Witness for C9 at the concrete body of the spec scenario. -/
theorem C9_create_then_get_witness :
    handleInsert [] 1 bodyABC =
      (Store.put [] 1 (some ⟨some "A", some "B", some "C"⟩),
        [.status 201, .body (serializeUserResponse ⟨1, some ⟨some "A", some "B", some "C"⟩⟩)])
    ∧ handleFindById (handleInsert [] 1 bodyABC).1 (Except.ok 1) =
        [.status 200, .body (serializeUserResponse ⟨1, some ⟨some "A", some "B", some "C"⟩⟩)] :=
  C9_create_then_get [] 1 bodyABC "A" "B" "C" rfl (by decide) rfl rfl rfl
